import Mathlib

/-!
Verification of the Bandersnatch classification pipeline (`app/machine.py`).

The `Machine` class extracts the "Rarity" target and the four numeric
feature columns from a pandas DataFrame, balances the class distribution
with SMOTE oversampling followed by random undersampling, fits an SVC
classifier, and exposes predict / save / load operations.

The resampling, classifier, and serialization algorithms live in external
libraries (imblearn, scikit-learn, joblib); they are modelled here from the
specification's description of their contracts.  The orchestration
(column extraction, order of stages, first-row narrowing of batch
predictions, whole-object persistence) follows `app/machine.py` directly.
-/

namespace Bandersnatch

/-- A cell of the input table: either a numeric value or a categorical
string, mirroring the mixed dtypes of the pandas DataFrame. -/
inductive Cell where
  | num (q : ℚ)
  | str (s : String)
deriving DecidableEq

/-- Numeric view of a cell.  The construction contract guarantees feature
columns are numeric; a non-numeric cell reads as 0. -/
def Cell.toRat : Cell → ℚ
  | .num q => q
  | .str _ => 0

/-- Categorical view of a cell. -/
def Cell.toStr : Cell → String
  | .str s => s
  | .num _ => ""

/-- One feature vector: the four numeric columns selected by
`df[["Level", "Health", "Energy", "Sanity"]]` in `Machine.__init__`. -/
structure FeatureRow where
  level : ℚ
  health : ℚ
  energy : ℚ
  sanity : ℚ
deriving DecidableEq, Inhabited

/-- A training row: feature vector paired with its "Rarity" label. -/
abbrev Row := FeatureRow × String

/-- The input table: a set of named columns and a list of rows, each row a
mapping from column name to cell (the shape `Machine.__init__` consumes). -/
structure DataFrame where
  columns : List String
  rows : List (String → Cell)

/-- Error taxonomy of the specification (§7).  `Machine.__init__` surfaces
these as the underlying pandas / imblearn / scikit-learn exceptions; the
spec names them as below. -/
inductive MachineError where
  | schemaMismatch
  | emptyDataset
  | insufficientSamples
  | degenerateTrainingSet
  | persistence
deriving DecidableEq

/-- The label column read by `df["Rarity"]`. -/
def targetColumn : String := "Rarity"

/-- The feature columns read by `df[["Level", "Health", "Energy", "Sanity"]]`. -/
def featureColumns : List String := ["Level", "Health", "Energy", "Sanity"]

/-- All columns the constructor reads. -/
def requiredCols : List String := targetColumn :: featureColumns

/-- Presence of all required columns in a table. -/
abbrev hasSchema (df : DataFrame) : Prop :=
  targetColumn ∈ df.columns ∧ ∀ c ∈ featureColumns, c ∈ df.columns

/-- Projection of one row onto the five columns the constructor reads. -/
def projRequired (r : String → Cell) : List Cell := requiredCols.map r

/-- Rebuild a training row from the projected cells. -/
def recordOfCells : List Cell → Row
  | [ra, le, he, en, sa] => (⟨le.toRat, he.toRat, en.toRat, sa.toRat⟩, ra.toStr)
  | _ => (default, "")

/-- Extraction of one training row from a table row. -/
def rowToRecord (r : String → Cell) : Row := recordOfCells (projRequired r)

/-- Extraction step of `Machine.__init__`: `target = df["Rarity"]` and
`features = df[[...]]`.  Modelled from the spec: a missing column makes
pandas raise `KeyError`, which the spec names `SchemaMismatchError`. -/
def extractRows (df : DataFrame) : Except MachineError (List Row) :=
  if hasSchema df then .ok (df.rows.map rowToRecord)
  else .error .schemaMismatch

/-- Number of rows carrying label `c`. -/
def countLabel (c : String) (rows : List Row) : Nat :=
  rows.countP (fun r => r.2 == c)

/-- The label sequence of a dataset. -/
def labelsOf (rows : List Row) : List String := rows.map (·.2)

/-- The distinct classes present in a dataset. -/
def classesOf (rows : List Row) : List String := (labelsOf rows).dedup

/-- The rows of one class, in order. -/
def classRows (c : String) (rows : List Row) : List Row :=
  rows.filter (fun r => r.2 == c)

/-- Size of the largest class. -/
def majCount (rows : List Row) : Nat :=
  ((classesOf rows).map (fun c => countLabel c rows)).foldr max 0

/-- Minimum of a list of counts (0 on the empty list). -/
def minCountList : List Nat → Nat
  | [] => 0
  | n :: ns => ns.foldr min n

/-- Size of the smallest class present. -/
def minCount (rows : List Row) : Nat :=
  minCountList ((classesOf rows).map (fun c => countLabel c rows))

/-- SMOTE's default nearest-neighbour count (`k_neighbors = 5`). -/
def kNeighbors : Nat := 5

/-- Interpolation between a sample and a chosen neighbour. -/
def midpointRow (a b : FeatureRow) : FeatureRow :=
  ⟨(a.level + b.level) / 2, (a.health + b.health) / 2,
   (a.energy + b.energy) / 2, (a.sanity + b.sanity) / 2⟩

/-- Modelled from the spec: SMOTE's synthesis of one new feature vector for
a minority class, interpolating between a sample and a deterministically
(seed-)chosen same-class neighbour. -/
def synthFeature (seed : Nat) (samples : List FeatureRow) (i : Nat) : FeatureRow :=
  let n := samples.length
  midpointRow (samples.getD (i % n) default) (samples.getD ((i + 1 + seed) % n) default)

/-- Synthetic rows generated for class `c`: exactly enough to raise its
count to the majority count, all labelled `c`. -/
def synthRows (seed : Nat) (rows : List Row) (c : String) : List Row :=
  (List.range (majCount rows - countLabel c rows)).map
    (fun i => (synthFeature seed (( classRows c rows).map (·.1)) i, c))

/-- Modelled from the spec: `SMOTE(sampling_strategy='auto', random_state=42)
.fit_resample`.  Fails on an empty dataset (`EmptyDatasetError`); fails when
a minority class is too small for the neighbour policy
(`InsufficientSamplesError`); otherwise appends synthetic rows until every
class reaches the majority count. -/
def oversample (seed : Nat) (rows : List Row) : Except MachineError (List Row) :=
  if rows = [] then .error .emptyDataset
  else if ∃ c ∈ classesOf rows,
      countLabel c rows < majCount rows ∧ countLabel c rows < kNeighbors + 1 then
    .error .insufficientSamples
  else .ok (rows ++ (classesOf rows).flatMap (synthRows seed rows))

/-- Modelled from the spec: `RandomUnderSampler(random_state=42).fit_resample`.
Selects, per class, exactly the minimum class count of rows, chosen
deterministically from the seed (without replacement). -/
def undersample (seed : Nat) (rows : List Row) : List Row :=
  (classesOf rows).flatMap
    (fun c => ((classRows c rows).rotate seed).take (minCount rows))

/-- The Resampling Stage: oversampling then undersampling, in the order
`Machine.__init__` applies them. -/
def resample (seed : Nat) (rows : List Row) : Except MachineError (List Row) :=
  match oversample seed rows with
  | .error e => .error e
  | .ok over => .ok (undersample seed over)

/-- The fixed random seed shared by the SVC, SMOTE and RandomUnderSampler
configuration (`random_state=42`). -/
def sklearnSeed : Nat := 42

/-- The trained pipeline controller: model name, fitted training data (the
classifier's fitted state is a deterministic function of it), and creation
timestamp, matching the attributes set in `Machine.__init__`. -/
structure Machine where
  name : String
  train : List Row
  timestamp : String
deriving DecidableEq

/-- Construction (`Machine.__init__`): extract target and features, resample,
then fit the SVC.  Modelled from the spec: fitting with fewer than two
distinct classes fails (`DegenerateTrainingSetError`).  The wall-clock
timestamp is an explicit input `now`. -/
def Machine.init (df : DataFrame) (now : String) : Except MachineError Machine :=
  match extractRows df with
  | .error e => .error e
  | .ok rows =>
    match resample sklearnSeed rows with
    | .error e => .error e
    | .ok res =>
      if (classesOf res).length < 2 then .error .degenerateTrainingSet
      else .ok ⟨"Support Vector Machines", res, now⟩

/-- Squared euclidean distance between two feature vectors. -/
def sqDist (a b : FeatureRow) : ℚ :=
  (a.level - b.level) ^ 2 + (a.health - b.health) ^ 2 +
  (a.energy - b.energy) ^ 2 + (a.sanity - b.sanity) ^ 2

/-- Componentwise mean of a list of feature vectors. -/
def meanFeature (fs : List FeatureRow) : FeatureRow :=
  ⟨(fs.map (·.level)).sum / fs.length, (fs.map (·.health)).sum / fs.length,
   (fs.map (·.energy)).sum / fs.length, (fs.map (·.sanity)).sum / fs.length⟩

/-- Modelled from the spec: the fitted SVC's positive per-class affinity
score for a feature vector (the classifier itself is external to the
repository; only the probability-calibrated contract matters here). -/
def classScore (train : List Row) (c : String) (f : FeatureRow) : ℚ :=
  1 / (1 + sqDist f (meanFeature ((classRows c train).map (·.1))))

/-- Modelled from the spec: `model.predict_proba` for one row — the
normalized per-class probability vector over the fitted classes. -/
def predictProba (train : List Row) (f : FeatureRow) : List (String × ℚ) :=
  let cs := classesOf train
  let total := (cs.map (fun c => classScore train c f)).sum
  cs.map (fun c => (c, classScore train c f / total))

/-- First entry of maximal probability (ties keep the earlier class),
mirroring `model.predict`'s argmax over the calibrated probabilities. -/
def bestOf : List (String × ℚ) → String × ℚ
  | [] => ("", 0)
  | x :: xs => xs.foldl (fun acc y => if acc.2 < y.2 then y else acc) x

/-- Maximum of a nonempty list of rationals (0 on the empty list),
mirroring Python's `max` over the probability vector. -/
def listMaxQ : List ℚ → ℚ
  | [] => 0
  | x :: xs => xs.foldl max x

/-- Prediction (`Machine.__call__`): `prediction, *_ = model.predict(fb)`
and `confidence, *_ = model.predict_proba(fb)` keep only the first row;
the returned confidence is `max` over that row's probability vector.
An empty batch cannot be unpacked, hence `none`. -/
def Machine.call (m : Machine) (batch : List FeatureRow) : Option (String × ℚ) :=
  match batch with
  | [] => none
  | f :: _ =>
    some ((bestOf (predictProba m.train f)).1,
          listMaxQ ((predictProba m.train f).map (·.2)))

/-- Serialized artifact: an opaque structured blob, modelling the joblib
pickle produced by `Machine.save`. -/
inductive Blob where
  | nat (n : Nat)
  | int (z : Int)
  | str (s : String)
  | node (xs : List Blob)

/-- Serialization of one rational. -/
def encodeRat (q : ℚ) : Blob := .node [.int q.num, .nat q.den]

/-- Deserialization of one rational. -/
def decodeRat : Blob → Option ℚ
  | .node [.int n, .nat d] => some ((n : ℚ) / (d : ℚ))
  | _ => none

/-- Serialization of a feature vector. -/
def encodeFeature (f : FeatureRow) : Blob :=
  .node [encodeRat f.level, encodeRat f.health, encodeRat f.energy, encodeRat f.sanity]

/-- Deserialization of a feature vector. -/
def decodeFeature : Blob → Option FeatureRow
  | .node [a, b, c, d] =>
    match decodeRat a, decodeRat b, decodeRat c, decodeRat d with
    | some l, some h, some e, some s => some ⟨l, h, e, s⟩
    | _, _, _, _ => none
  | _ => none

/-- Serialization of a training row. -/
def encodeRow (r : Row) : Blob := .node [encodeFeature r.1, .str r.2]

/-- Deserialization of a training row. -/
def decodeRow : Blob → Option Row
  | .node [bf, .str lab] =>
    match decodeFeature bf with
    | some f => some (f, lab)
    | none => none
  | _ => none

/-- Persistence (`Machine.save`): joblib-dump the whole controller state —
name, fitted state, timestamp — into a single artifact. -/
def Machine.save (m : Machine) : Blob :=
  .node [.str m.name, .node (m.train.map encodeRow), .str m.timestamp]

/-- Reload (`Machine.open` in the source; `open` is a Lean keyword):
joblib-load the artifact back into a controller, with no re-training.
Modelled from the spec: an unreadable artifact is a `PersistenceError`. -/
def Machine.load : Blob → Except MachineError Machine
  | .node [.str name, .node rows, .str ts] =>
    match rows.mapM decodeRow with
    | some train => .ok ⟨name, train, ts⟩
    | none => .error .persistence
  | _ => .error .persistence

/-! Counting lemmas about the resampling stage. -/

theorem countLabel_append (c : String) (l1 l2 : List Row) :
    countLabel c (l1 ++ l2) = countLabel c l1 + countLabel c l2 := by
  simp [countLabel, List.countP_append]

theorem countLabel_eq_length (c : String) (l : List Row) (h : ∀ r ∈ l, r.2 = c) :
    countLabel c l = l.length := by
  unfold countLabel
  exact List.countP_eq_length.mpr (fun r hr => by simp [h r hr])

theorem countLabel_eq_zero (c : String) (l : List Row) (h : ∀ r ∈ l, r.2 ≠ c) :
    countLabel c l = 0 := by
  unfold countLabel
  exact List.countP_eq_zero.mpr (fun r hr => by simp [h r hr])

theorem countLabel_pos (c : String) (l : List Row) :
    0 < countLabel c l ↔ ∃ r ∈ l, r.2 = c := by
  unfold countLabel
  rw [List.countP_pos_iff]
  simp

theorem mem_classesOf (c : String) (rows : List Row) :
    c ∈ classesOf rows ↔ ∃ r ∈ rows, r.2 = c := by
  unfold classesOf labelsOf
  rw [List.mem_dedup, List.mem_map]

theorem nodup_classesOf (rows : List Row) : (classesOf rows).Nodup :=
  List.nodup_dedup _

theorem countLabel_flatMap (cs : List String) (f : String → List Row) (c : String)
    (hnd : cs.Nodup) (hf : ∀ c' r, r ∈ f c' → r.2 = c') :
    countLabel c (cs.flatMap f) = if c ∈ cs then (f c).length else 0 := by
  induction cs with
  | nil => simp [countLabel]
  | cons a as ih =>
    obtain ⟨hna, hnd'⟩ := List.nodup_cons.mp hnd
    rw [List.flatMap_cons, countLabel_append, ih hnd']
    by_cases hac : a = c
    · subst hac
      rw [countLabel_eq_length a (f a) (fun r hr => hf a r hr)]
      simp [hna]
    · rw [countLabel_eq_zero c (f a) (fun r hr => by rw [hf a r hr]; exact hac), Nat.zero_add]
      have hca : c ≠ a := fun h => hac h.symm
      simp [List.mem_cons, hca]

theorem le_foldr_max (l : List Nat) (x : Nat) (hx : x ∈ l) : x ≤ l.foldr max 0 := by
  induction l with
  | nil => simp at hx
  | cons a as ih =>
    rcases List.mem_cons.mp hx with h | h
    · subst h; exact Nat.le_max_left _ _
    · exact le_trans (ih h) (Nat.le_max_right _ _)

theorem foldr_max_le (ns : List Nat) (k : Nat) (h : ∀ n ∈ ns, n ≤ k) :
    ns.foldr max 0 ≤ k := by
  induction ns with
  | nil => simp
  | cons a as ih =>
    exact Nat.max_le.mpr ⟨h a (List.mem_cons_self _ _), ih (fun n hn => h n (List.mem_cons_of_mem a hn))⟩

theorem countLabel_le_majCount (c : String) (rows : List Row) (hc : c ∈ classesOf rows) :
    countLabel c rows ≤ majCount rows :=
  le_foldr_max _ _ (List.mem_map_of_mem _ hc)

theorem majCount_const (rows : List Row) (k : Nat)
    (hne : classesOf rows ≠ [])
    (h : ∀ c ∈ classesOf rows, countLabel c rows = k) : majCount rows = k := by
  apply le_antisymm
  · exact foldr_max_le _ _ (by
      intro n hn
      obtain ⟨c, hc, rfl⟩ := List.mem_map.mp hn
      exact le_of_eq (h c hc))
  · obtain ⟨c, hc⟩ := List.exists_mem_of_ne_nil _ hne
    calc k = countLabel c rows := (h c hc).symm
    _ ≤ majCount rows := countLabel_le_majCount c rows hc

theorem foldr_min_le (ns : List Nat) (a : Nat) : ns.foldr min a ≤ a := by
  induction ns with
  | nil => simp
  | cons b bs ih => exact le_trans (Nat.min_le_right _ _) ih

theorem le_foldr_min (ns : List Nat) (a k : Nat) (ha : k ≤ a) (h : ∀ n ∈ ns, k ≤ n) :
    k ≤ ns.foldr min a := by
  induction ns with
  | nil => exact ha
  | cons b bs ih =>
    exact Nat.le_min.mpr ⟨h b (List.mem_cons_self _ _), ih (fun n hn => h n (List.mem_cons_of_mem b hn))⟩

theorem le_minCountList (ns : List Nat) (k : Nat) (hne : ns ≠ []) (h : ∀ n ∈ ns, k ≤ n) :
    k ≤ minCountList ns := by
  cases ns with
  | nil => contradiction
  | cons a as =>
    exact le_foldr_min as a k (h a (List.mem_cons_self _ _))
      (fun n hn => h n (List.mem_cons_of_mem a hn))

theorem minCountList_le (ns : List Nat) (n : Nat) (hn : n ∈ ns) : minCountList ns ≤ n := by
  cases ns with
  | nil => simp at hn
  | cons a as =>
    rcases List.mem_cons.mp hn with h | h
    · subst h; exact foldr_min_le as n
    · clear hn
      unfold minCountList
      induction as with
      | nil => simp at h
      | cons b bs ih =>
        rcases List.mem_cons.mp h with hb | hb
        · subst hb; exact Nat.min_le_left _ _
        · exact le_trans (Nat.min_le_right _ _) (ih hb)

theorem minCountList_eq (ns : List Nat) (k : Nat) (hne : ns ≠ []) (h : ∀ n ∈ ns, n = k) :
    minCountList ns = k :=
  le_antisymm
    (by
      obtain ⟨n, hn⟩ := List.exists_mem_of_ne_nil _ hne
      exact (h n hn) ▸ minCountList_le ns n hn)
    (le_minCountList ns k hne (fun n hn => le_of_eq (h n hn).symm))

theorem classesOf_ne_nil (rows : List Row) (hne : rows ≠ []) : classesOf rows ≠ [] := by
  intro h
  unfold classesOf labelsOf at h
  rw [List.dedup_eq_nil, List.map_eq_nil_iff] at h
  exact hne h

theorem one_le_countLabel (c : String) (rows : List Row) (hc : c ∈ classesOf rows) :
    1 ≤ countLabel c rows :=
  (countLabel_pos c rows).mpr ((mem_classesOf c rows).mp hc)

theorem one_le_minCount (rows : List Row) (hne : rows ≠ []) : 1 ≤ minCount rows := by
  unfold minCount
  apply le_minCountList _ _ (by simp [classesOf_ne_nil rows hne])
  intro n hn
  obtain ⟨c, hc, rfl⟩ := List.mem_map.mp hn
  exact one_le_countLabel c rows hc

theorem mem_synthRows (seed : Nat) (rows : List Row) (c : String) (r : Row)
    (h : r ∈ synthRows seed rows c) : r.2 = c := by
  unfold synthRows at h
  obtain ⟨i, _, rfl⟩ := List.mem_map.mp h
  rfl

theorem length_synthRows (seed : Nat) (rows : List Row) (c : String) :
    (synthRows seed rows c).length = majCount rows - countLabel c rows := by
  simp [synthRows]

theorem oversample_ok (seed : Nat) (rows over : List Row)
    (h : oversample seed rows = .ok over) :
    rows ≠ [] ∧
    (¬ ∃ c ∈ classesOf rows,
        countLabel c rows < majCount rows ∧ countLabel c rows < kNeighbors + 1) ∧
    over = rows ++ (classesOf rows).flatMap (synthRows seed rows) := by
  unfold oversample at h
  split at h
  · exact absurd h (by simp)
  · split at h
    · exact absurd h (by simp)
    · exact ⟨by assumption, by assumption, (Except.ok.inj h).symm⟩

theorem mem_flatMap_synth (seed : Nat) (rows : List Row) (r : Row)
    (h : r ∈ (classesOf rows).flatMap (synthRows seed rows)) :
    r.2 ∈ classesOf rows := by
  obtain ⟨c, hc, hr⟩ := List.mem_flatMap.mp h
  rw [mem_synthRows seed rows c r hr]
  exact hc

theorem countLabel_oversample (seed : Nat) (rows over : List Row) (c : String)
    (h : oversample seed rows = .ok over) (hc : c ∈ classesOf rows) :
    countLabel c over = majCount rows := by
  obtain ⟨hne, hins, rfl⟩ := oversample_ok seed rows over h
  rw [countLabel_append,
    countLabel_flatMap (classesOf rows) (synthRows seed rows) c (nodup_classesOf rows)
      (fun a r hr => mem_synthRows seed rows a r hr),
    if_pos hc, length_synthRows]
  exact Nat.add_sub_cancel' (countLabel_le_majCount c rows hc)

theorem mem_classesOf_oversample (seed : Nat) (rows over : List Row)
    (h : oversample seed rows = .ok over) (c : String) :
    c ∈ classesOf over ↔ c ∈ classesOf rows := by
  obtain ⟨hne, hins, rfl⟩ := oversample_ok seed rows over h
  constructor
  · intro hc
    obtain ⟨r, hr, hrc⟩ := (mem_classesOf c _).mp hc
    rcases List.mem_append.mp hr with hr | hr
    · exact (mem_classesOf c rows).mpr ⟨r, hr, hrc⟩
    · exact hrc ▸ mem_flatMap_synth seed rows r hr
  · intro hc
    obtain ⟨r, hr, hrc⟩ := (mem_classesOf c rows).mp hc
    exact (mem_classesOf c _).mpr ⟨r, List.mem_append_left _ hr, hrc⟩

theorem majCount_oversample (seed : Nat) (rows over : List Row)
    (h : oversample seed rows = .ok over) : majCount over = majCount rows := by
  obtain ⟨hne, _, _⟩ := oversample_ok seed rows over h
  apply majCount_const
  · intro hnil
    have := classesOf_ne_nil rows hne
    obtain ⟨c, hc⟩ := List.exists_mem_of_ne_nil _ this
    exact (List.eq_nil_iff_forall_not_mem.mp hnil) c
      ((mem_classesOf_oversample seed rows over h c).mpr hc)
  · intro c hc
    exact countLabel_oversample seed rows over c h
      ((mem_classesOf_oversample seed rows over h c).mp hc)

theorem length_classRows (c : String) (rows : List Row) :
    (classRows c rows).length = countLabel c rows :=
  (List.countP_eq_length_filter _ _).symm

theorem countLabel_undersample (seed : Nat) (rows : List Row) (c : String) :
    countLabel c (undersample seed rows) =
      if c ∈ classesOf rows then min (minCount rows) (countLabel c rows) else 0 := by
  unfold undersample
  rw [countLabel_flatMap (classesOf rows) _ c (nodup_classesOf rows)
    (fun a r hr => by
      have hr1 : r ∈ (classRows a rows).rotate seed := List.take_subset _ _ hr
      have hr2 : r ∈ classRows a rows := (List.mem_rotate).mp hr1
      have := List.mem_filter.mp hr2
      exact beq_iff_eq.mp this.2)]
  by_cases hc : c ∈ classesOf rows
  · rw [if_pos hc, if_pos hc, List.length_take, List.length_rotate, length_classRows]
  · rw [if_neg hc, if_neg hc]

theorem mem_undersample (seed : Nat) (rows : List Row) (r : Row)
    (h : r ∈ undersample seed rows) : r ∈ rows := by
  unfold undersample at h
  obtain ⟨c, hc, hr⟩ := List.mem_flatMap.mp h
  have hr1 : r ∈ (classRows c rows).rotate seed := List.take_subset _ _ hr
  have hr2 : r ∈ classRows c rows := (List.mem_rotate).mp hr1
  exact (List.mem_filter.mp hr2).1

theorem minCount_oversample (seed : Nat) (rows over : List Row)
    (h : oversample seed rows = .ok over) : minCount over = majCount rows := by
  obtain ⟨hne, _, hover⟩ := oversample_ok seed rows over h
  have hone : over ≠ [] := by
    rw [hover]
    cases rows with
    | nil => exact absurd rfl hne
    | cons a l => simp
  unfold minCount
  apply minCountList_eq _ _ (by simp [classesOf_ne_nil over hone])
  intro n hn
  obtain ⟨c, hc, rfl⟩ := List.mem_map.mp hn
  exact countLabel_oversample seed rows over c h
    ((mem_classesOf_oversample seed rows over h c).mp hc)

/-! Inversion and propagation lemmas for the construction pipeline. -/

theorem resample_ok (seed : Nat) (rows res : List Row)
    (h : resample seed rows = .ok res) :
    ∃ over, oversample seed rows = .ok over ∧ res = undersample seed over := by
  unfold resample at h
  split at h
  · exact absurd h (by simp)
  · rename_i over hover
    exact ⟨over, hover, (Except.ok.inj h).symm⟩

theorem resample_oversample_error (seed : Nat) (rows : List Row) (e : MachineError)
    (h : oversample seed rows = .error e) : resample seed rows = .error e := by
  unfold resample
  rw [h]

theorem init_extract_ok (df : DataFrame) (now : String) (rows : List Row)
    (hx : extractRows df = .ok rows) :
    Machine.init df now =
      match resample sklearnSeed rows with
      | .error e => .error e
      | .ok res =>
        if (classesOf res).length < 2 then .error .degenerateTrainingSet
        else .ok ⟨"Support Vector Machines", res, now⟩ := by
  unfold Machine.init
  rw [hx]

theorem init_extract_error (df : DataFrame) (now : String) (e : MachineError)
    (hx : extractRows df = .error e) : Machine.init df now = .error e := by
  unfold Machine.init
  rw [hx]

theorem init_resample_ok (df : DataFrame) (now : String) (rows res : List Row)
    (hx : extractRows df = .ok rows) (hr : resample sklearnSeed rows = .ok res) :
    Machine.init df now =
      if (classesOf res).length < 2 then .error .degenerateTrainingSet
      else .ok ⟨"Support Vector Machines", res, now⟩ := by
  rw [init_extract_ok df now rows hx, hr]

theorem init_resample_error (df : DataFrame) (now : String) (rows : List Row)
    (e : MachineError) (hx : extractRows df = .ok rows)
    (hr : resample sklearnSeed rows = .error e) : Machine.init df now = .error e := by
  rw [init_extract_ok df now rows hx, hr]

theorem init_ok (df : DataFrame) (now : String) (m : Machine)
    (h : Machine.init df now = .ok m) :
    ∃ rows over, extractRows df = .ok rows ∧ oversample sklearnSeed rows = .ok over ∧
      m.train = undersample sklearnSeed over ∧
      2 ≤ (classesOf (undersample sklearnSeed over)).length := by
  unfold Machine.init at h
  split at h
  · exact absurd h (by simp)
  · rename_i rows hx
    split at h
    · exact absurd h (by simp)
    · rename_i res hres
      obtain ⟨over, hover, rfl⟩ := resample_ok sklearnSeed rows res hres
      split at h
      · exact absurd h (by simp)
      · rename_i hlen
        refine ⟨rows, over, hx, hover, ?_, not_lt.mp hlen⟩
        rw [← Except.ok.inj h]

/-! Claim theorems for the error-handling and balance properties. -/

/-- C5: construction with an empty table fails with `EmptyDatasetError`, and
construction with a table missing the "Rarity" column or any of the four
feature columns fails with `SchemaMismatchError`; in both cases no model is
produced. -/
theorem c5_construction_errors (df : DataFrame) (now : String) :
    (df.rows = [] → hasSchema df → Machine.init df now = .error .emptyDataset) ∧
    (¬ hasSchema df → Machine.init df now = .error .schemaMismatch) := by
  constructor
  · intro hrows hschema
    have hx : extractRows df = .ok [] := by
      unfold extractRows
      rw [if_pos hschema, hrows]
      rfl
    exact init_resample_error df now [] _ hx rfl
  · intro hschema
    have hx : extractRows df = .error .schemaMismatch := by
      unfold extractRows
      rw [if_neg hschema]
    exact init_extract_error df now _ hx

theorem eq_single_of_const (l : List String) (c : String) (hnd : l.Nodup)
    (hne : l ≠ []) (h : ∀ x ∈ l, x = c) : l = [c] := by
  cases l with
  | nil => contradiction
  | cons a as =>
    have hac : a = c := h a (List.mem_cons_self _ _)
    subst hac
    have has : as = [] := by
      rw [List.eq_nil_iff_forall_not_mem]
      intro x hx
      have hxc : x = a := h x (List.mem_cons_of_mem a hx)
      exact (List.nodup_cons.mp hnd).1 (hxc ▸ hx)
    rw [has]

theorem classesOf_const (rows : List Row) (c : String) (hne : rows ≠ [])
    (h : ∀ r ∈ rows, r.2 = c) : classesOf rows = [c] :=
  eq_single_of_const _ c (nodup_classesOf rows) (classesOf_ne_nil rows hne)
    (fun x hx => by
      obtain ⟨r, hr, hrx⟩ := (mem_classesOf x rows).mp hx
      rw [← hrx]
      exact h r hr)

/-- C6: constructing from a table whose rows carry a single distinct label
makes the fit step fail with `DegenerateTrainingSetError`. -/
theorem c6_degenerate_training (df : DataFrame) (now : String) (rows : List Row)
    (hx : extractRows df = .ok rows) (h1 : (classesOf rows).length = 1) :
    Machine.init df now = .error .degenerateTrainingSet := by
  obtain ⟨c, hc⟩ := List.length_eq_one.mp h1
  have hall : ∀ r ∈ rows, r.2 = c := by
    intro r hr
    have hmem : r.2 ∈ classesOf rows := (mem_classesOf r.2 rows).mpr ⟨r, hr, rfl⟩
    rw [hc] at hmem
    simpa using hmem
  have hne : rows ≠ [] := by
    intro h0
    rw [h0] at hc
    simp [classesOf, labelsOf] at hc
  have hmaj : majCount rows = countLabel c rows := by
    unfold majCount
    rw [hc]
    simp
  have hover : oversample sklearnSeed rows =
      .ok (rows ++ (classesOf rows).flatMap (synthRows sklearnSeed rows)) := by
    unfold oversample
    rw [if_neg hne, if_neg (by
      rintro ⟨a, ha, hlt, _⟩
      rw [hc] at ha
      have hca : a = c := by simpa using ha
      subst hca
      rw [hmaj] at hlt
      exact lt_irrefl _ hlt)]
  have hoverall : ∀ r ∈ rows ++ (classesOf rows).flatMap (synthRows sklearnSeed rows),
      r.2 = c := by
    intro r hr
    rcases List.mem_append.mp hr with hr | hr
    · exact hall r hr
    · have := mem_flatMap_synth sklearnSeed rows r hr
      rw [hc] at this
      simpa using this
  have hoverne : rows ++ (classesOf rows).flatMap (synthRows sklearnSeed rows) ≠ [] := by
    cases rows with
    | nil => exact absurd rfl hne
    | cons a l => simp
  have hresall : ∀ r ∈ undersample sklearnSeed
      (rows ++ (classesOf rows).flatMap (synthRows sklearnSeed rows)), r.2 = c :=
    fun r hr => hoverall r (mem_undersample _ _ r hr)
  have hresne : undersample sklearnSeed
      (rows ++ (classesOf rows).flatMap (synthRows sklearnSeed rows)) ≠ [] := by
    obtain ⟨r, hr⟩ := List.exists_mem_of_ne_nil _ hoverne
    have hcin : c ∈ classesOf (rows ++ (classesOf rows).flatMap (synthRows sklearnSeed rows)) :=
      (mem_classesOf c _).mpr ⟨r, hr, hoverall r hr⟩
    have hcount : 0 < countLabel c (undersample sklearnSeed
        (rows ++ (classesOf rows).flatMap (synthRows sklearnSeed rows))) := by
      rw [countLabel_undersample, if_pos hcin]
      exact lt_min_iff.mpr ⟨one_le_minCount _ hoverne, one_le_countLabel c _ hcin⟩
    intro h0
    rw [h0] at hcount
    simp [countLabel] at hcount
  have hresclasses := classesOf_const _ c hresne hresall
  have hres : resample sklearnSeed rows = .ok (undersample sklearnSeed
      (rows ++ (classesOf rows).flatMap (synthRows sklearnSeed rows))) := by
    unfold resample
    rw [hover]
  rw [init_resample_ok df now rows _ hx hres, if_pos (by rw [hresclasses]; simp)]

/-- C7: a minority class with fewer samples than SMOTE's neighbour policy
requires makes resampling, and hence construction, fail with
`InsufficientSamplesError`. -/
theorem c7_insufficient_samples (df : DataFrame) (now : String) (rows : List Row)
    (c : String) (hx : extractRows df = .ok rows) (hc : c ∈ classesOf rows)
    (hmin : countLabel c rows < majCount rows)
    (hk : countLabel c rows < kNeighbors + 1) :
    Machine.init df now = .error .insufficientSamples := by
  have hne : rows ≠ [] := by
    intro h0
    rw [h0] at hc
    simp [classesOf, labelsOf] at hc
  have hover : oversample sklearnSeed rows = .error .insufficientSamples := by
    unfold oversample
    rw [if_neg hne, if_pos ⟨c, hc, hmin, hk⟩]
  exact init_resample_error df now rows _ hx
    (resample_oversample_error sklearnSeed rows _ hover)

/-- C9: oversampling never reduces any class count, and undersampling never
increases any class count. -/
theorem c9_monotone_resampling (seed : Nat) (rows over : List Row)
    (hover : oversample seed rows = .ok over) (c : String) :
    countLabel c rows ≤ countLabel c over ∧
    countLabel c (undersample seed over) ≤ countLabel c over := by
  obtain ⟨hne, hins, rfl⟩ := oversample_ok seed rows over hover
  constructor
  · rw [countLabel_append]
    exact Nat.le_add_right _ _
  · rw [countLabel_undersample]
    split
    · exact Nat.min_le_right _ _
    · exact Nat.zero_le _

/-- C1: whenever construction succeeds, the dataset produced by the
Resampling Stage is balanced — every class present in the input has the
same row count, equal to the post-oversampling majority count. -/
theorem c1_balanced_resampling (df : DataFrame) (now : String) (m : Machine)
    (rows over : List Row) (hm : Machine.init df now = .ok m)
    (hx : extractRows df = .ok rows)
    (hover : oversample sklearnSeed rows = .ok over) :
    (∀ c ∈ classesOf rows, countLabel c m.train = majCount over) ∧
    (∀ c1 ∈ classesOf rows, ∀ c2 ∈ classesOf rows,
      countLabel c1 m.train = countLabel c2 m.train) := by
  obtain ⟨rows0, over0, hx0, hover0, htr, _⟩ := init_ok df now m hm
  rw [hx] at hx0
  obtain rfl := Except.ok.inj hx0
  rw [hover] at hover0
  obtain rfl := Except.ok.inj hover0
  have key : ∀ c ∈ classesOf rows, countLabel c m.train = majCount over := by
    intro c hc
    have hcov : c ∈ classesOf over :=
      (mem_classesOf_oversample sklearnSeed rows over hover c).mpr hc
    rw [htr, countLabel_undersample, if_pos hcov,
      minCount_oversample sklearnSeed rows over hover,
      countLabel_oversample sklearnSeed rows over c hover hc,
      majCount_oversample sklearnSeed rows over hover, min_self]
  exact ⟨key, fun c1 h1 c2 h2 => by rw [key c1 h1, key c2 h2]⟩

theorem call_congr (m1 m2 : Machine) (h : m1.train = m2.train)
    (batch : List FeatureRow) : m1.call batch = m2.call batch := by
  unfold Machine.call
  rw [h]

/-- C4: constructing twice from the same input table (same fixed seeds)
yields controllers with identical predictions on every feature batch —
the timestamps may differ, the fitted state cannot. -/
theorem c4_deterministic_fit (df : DataFrame) (t1 t2 : String) (m1 m2 : Machine)
    (h1 : Machine.init df t1 = .ok m1) (h2 : Machine.init df t2 = .ok m2)
    (batch : List FeatureRow) : m1.call batch = m2.call batch := by
  obtain ⟨rows1, over1, hx1, hover1, htr1, _⟩ := init_ok df t1 m1 h1
  obtain ⟨rows2, over2, hx2, hover2, htr2, _⟩ := init_ok df t2 m2 h2
  rw [hx1] at hx2
  obtain rfl := Except.ok.inj hx2
  rw [hover1] at hover2
  obtain rfl := Except.ok.inj hover2
  exact call_congr m1 m2 (htr1.trans htr2.symm) batch

/-! Lemmas about the prediction contract. -/

theorem sqDist_nonneg (a b : FeatureRow) : 0 ≤ sqDist a b := by
  unfold sqDist
  positivity

theorem classScore_pos (train : List Row) (c : String) (f : FeatureRow) :
    0 < classScore train c f := by
  unfold classScore
  have h := sqDist_nonneg f (meanFeature ((classRows c train).map (·.1)))
  apply div_pos one_pos
  linarith

theorem scoreSum_pos (train : List Row) (f : FeatureRow) (cs : List String)
    (hne : cs ≠ []) : 0 < (cs.map (fun c => classScore train c f)).sum := by
  cases cs with
  | nil => contradiction
  | cons a as =>
    rw [List.map_cons, List.sum_cons]
    have h1 : 0 < classScore train a f := classScore_pos train a f
    have h2 : 0 ≤ (as.map (fun c => classScore train c f)).sum := by
      apply List.sum_nonneg
      intro x hx
      obtain ⟨c, _, rfl⟩ := List.mem_map.mp hx
      exact le_of_lt (classScore_pos train c f)
    linarith

theorem predictProba_bounds (train : List Row) (f : FeatureRow)
    (hne : classesOf train ≠ []) :
    ∀ p ∈ predictProba train f, 0 ≤ p.2 ∧ p.2 ≤ 1 := by
  intro p hp
  unfold predictProba at hp
  obtain ⟨c, hc, rfl⟩ := List.mem_map.mp hp
  dsimp only
  have htot := scoreSum_pos train f (classesOf train) hne
  constructor
  · exact le_of_lt (div_pos (classScore_pos train c f) htot)
  · apply div_le_one_of_le₀
    · exact List.single_le_sum
        (fun x hx => by
          obtain ⟨a, _, rfl⟩ := List.mem_map.mp hx
          exact le_of_lt (classScore_pos train a f)) _
        (List.mem_map_of_mem _ hc)
    · exact le_of_lt htot

theorem predictProba_ne_nil (train : List Row) (f : FeatureRow)
    (hne : classesOf train ≠ []) : predictProba train f ≠ [] := by
  unfold predictProba
  intro h0
  rw [List.map_eq_nil_iff] at h0
  exact hne h0

theorem foldl_best_mem (x : String × ℚ) (xs : List (String × ℚ)) :
    xs.foldl (fun acc y => if acc.2 < y.2 then y else acc) x ∈ x :: xs := by
  induction xs generalizing x with
  | nil => simp
  | cons y ys ih =>
    rw [List.foldl_cons]
    have h := ih (if x.2 < y.2 then y else x)
    rcases List.mem_cons.mp h with h1 | h1
    · rw [h1]
      split
      · exact List.mem_cons_of_mem x (List.mem_cons_self _ _)
      · exact List.mem_cons_self _ _
    · exact List.mem_cons_of_mem _ (List.mem_cons_of_mem _ h1)

theorem foldl_best_le (x : String × ℚ) (xs : List (String × ℚ)) :
    ∀ p ∈ x :: xs, p.2 ≤ (xs.foldl (fun acc y => if acc.2 < y.2 then y else acc) x).2 := by
  induction xs generalizing x with
  | nil =>
    intro p hp
    rw [List.mem_singleton] at hp
    rw [hp]
    exact le_refl _
  | cons y ys ih =>
    intro p hp
    rw [List.foldl_cons]
    have hstep : x.2 ≤ (if x.2 < y.2 then y else x).2 ∧
        y.2 ≤ (if x.2 < y.2 then y else x).2 := by
      split
      · exact ⟨le_of_lt (by assumption), le_refl _⟩
      · exact ⟨le_refl _, le_of_not_lt (by assumption)⟩
    rcases List.mem_cons.mp hp with rfl | hp1
    · exact le_trans hstep.1 (ih _ _ (List.mem_cons_self _ _))
    · rcases List.mem_cons.mp hp1 with rfl | hp2
      · exact le_trans hstep.2 (ih _ _ (List.mem_cons_self _ _))
      · exact ih _ p (List.mem_cons_of_mem _ hp2)

theorem bestOf_mem (l : List (String × ℚ)) (hne : l ≠ []) : bestOf l ∈ l := by
  cases l with
  | nil => contradiction
  | cons x xs => exact foldl_best_mem x xs

theorem bestOf_le (l : List (String × ℚ)) (p : String × ℚ) (hp : p ∈ l) :
    p.2 ≤ (bestOf l).2 := by
  cases l with
  | nil => simp at hp
  | cons x xs => exact foldl_best_le x xs p hp

theorem foldl_best_snd (x : String × ℚ) (xs : List (String × ℚ)) :
    (xs.foldl (fun acc y => if acc.2 < y.2 then y else acc) x).2 =
      (xs.map (·.2)).foldl max x.2 := by
  induction xs generalizing x with
  | nil => rfl
  | cons y ys ih =>
    rw [List.foldl_cons, List.map_cons, List.foldl_cons, ih]
    congr 1
    split
    · exact (max_eq_right (le_of_lt (by assumption))).symm
    · exact (max_eq_left (le_of_not_lt (by assumption))).symm

theorem listMaxQ_eq_bestOf (l : List (String × ℚ)) (hne : l ≠ []) :
    listMaxQ (l.map (·.2)) = (bestOf l).2 := by
  cases l with
  | nil => contradiction
  | cons x xs =>
    rw [List.map_cons]
    unfold listMaxQ bestOf
    exact (foldl_best_snd x xs).symm

/-- C3: a successful prediction on a nonempty (single-row or batch) input
returns a pair whose confidence lies in [0,1], equals the maximum entry of
the first row's per-class probability vector, and is the probability of the
returned label. -/
theorem c3_confidence_contract (df : DataFrame) (now : String) (m : Machine)
    (hm : Machine.init df now = .ok m) (f : FeatureRow) (rest : List FeatureRow)
    (lbl : String) (conf : ℚ) (hp : m.call (f :: rest) = some (lbl, conf)) :
    0 ≤ conf ∧ conf ≤ 1 ∧ (lbl, conf) ∈ predictProba m.train f ∧
    ∀ p ∈ predictProba m.train f, p.2 ≤ conf := by
  obtain ⟨rows, over, hx, hover, htr, hlen⟩ := init_ok df now m hm
  have hcne : classesOf m.train ≠ [] := by
    intro h0
    rw [htr] at h0
    rw [h0] at hlen
    simp at hlen
  have hpne : predictProba m.train f ≠ [] := predictProba_ne_nil m.train f hcne
  simp only [Machine.call] at hp
  have hinj := Option.some.inj hp
  have hlbl : lbl = (bestOf (predictProba m.train f)).1 := (congrArg Prod.fst hinj).symm
  have hconf : conf = listMaxQ ((predictProba m.train f).map (·.2)) :=
    (congrArg Prod.snd hinj).symm
  rw [listMaxQ_eq_bestOf _ hpne] at hconf
  have hpair : (lbl, conf) = bestOf (predictProba m.train f) := by
    rw [hlbl, hconf]
  have hmem : (lbl, conf) ∈ predictProba m.train f := hpair ▸ bestOf_mem _ hpne
  have hbounds := predictProba_bounds m.train f hcne _ hmem
  refine ⟨hbounds.1, hbounds.2, hmem, ?_⟩
  intro p hp2
  rw [hconf]
  exact bestOf_le _ p hp2

/-- C8: batch inputs are accepted, but only the first row's
(label, confidence) result is surfaced. -/
theorem c8_first_row_only (m : Machine) (f : FeatureRow) (rest : List FeatureRow) :
    m.call (f :: rest) = m.call [f] ∧
    m.call (f :: rest) = some ((bestOf (predictProba m.train f)).1,
      listMaxQ ((predictProba m.train f).map (·.2))) :=
  ⟨rfl, rfl⟩

/-! Persistence round trip. -/

theorem decodeRat_encodeRat (q : ℚ) : decodeRat (encodeRat q) = some q := by
  have h : decodeRat (encodeRat q) = some ((q.num : ℚ) / (q.den : ℚ)) := rfl
  rw [h, Rat.num_div_den]

theorem decodeFeature_encodeFeature (f : FeatureRow) :
    decodeFeature (encodeFeature f) = some f := by
  show (match decodeRat (encodeRat f.level), decodeRat (encodeRat f.health),
      decodeRat (encodeRat f.energy), decodeRat (encodeRat f.sanity) with
    | some l, some h, some e, some s => some (⟨l, h, e, s⟩ : FeatureRow)
    | _, _, _, _ => none) = some f
  rw [decodeRat_encodeRat, decodeRat_encodeRat, decodeRat_encodeRat, decodeRat_encodeRat]

theorem decodeRow_encodeRow (r : Row) : decodeRow (encodeRow r) = some r := by
  show (match decodeFeature (encodeFeature r.1) with
    | some f => some (f, r.2)
    | none => none) = some r
  rw [decodeFeature_encodeFeature]

theorem mapM_decodeRow (l : List Row) : (l.map encodeRow).mapM decodeRow = some l := by
  induction l with
  | nil => rfl
  | cons r rs ih =>
    rw [List.map_cons, List.mapM_cons, decodeRow_encodeRow, ih]
    rfl

theorem load_save (m : Machine) : Machine.load (Machine.save m) = .ok m := by
  show (match (m.train.map encodeRow).mapM decodeRow with
    | some train => Except.ok (⟨m.name, train, m.timestamp⟩ : Machine)
    | none => Except.error MachineError.persistence) = Except.ok m
  rw [mapM_decodeRow]

/-- C2: persistence round trip — reloading a saved controller yields a
controller whose predictions coincide exactly with the original's on every
input, with no re-training. -/
theorem c2_persistence_roundtrip (m : Machine) (batch : List FeatureRow) :
    ∃ m2, Machine.load (Machine.save m) = .ok m2 ∧ m2.call batch = m.call batch :=
  ⟨m, load_save m, rfl⟩

/-! Construction reads only the five declared columns. -/

theorem rowToRecord_factor :
    rowToRecord = fun r => recordOfCells (projRequired r) := rfl

theorem extractRows_agree (df1 df2 : DataFrame)
    (hcols : ∀ c ∈ requiredCols, (c ∈ df1.columns ↔ c ∈ df2.columns))
    (hproj : df1.rows.map projRequired = df2.rows.map projRequired) :
    extractRows df1 = extractRows df2 := by
  have htarget : targetColumn ∈ requiredCols := List.mem_cons_self _ _
  have hfeat : ∀ c ∈ featureColumns, c ∈ requiredCols :=
    fun c hc => List.mem_cons_of_mem _ hc
  have hschema : hasSchema df1 ↔ hasSchema df2 := by
    unfold hasSchema
    constructor
    · rintro ⟨h1, h2⟩
      exact ⟨(hcols _ htarget).mp h1, fun c hc => (hcols c (hfeat c hc)).mp (h2 c hc)⟩
    · rintro ⟨h1, h2⟩
      exact ⟨(hcols _ htarget).mpr h1, fun c hc => (hcols c (hfeat c hc)).mpr (h2 c hc)⟩
  have hrecords : df1.rows.map rowToRecord = df2.rows.map rowToRecord := by
    rw [rowToRecord_factor]
    calc df1.rows.map (fun r => recordOfCells (projRequired r))
        = (df1.rows.map projRequired).map recordOfCells := by rw [List.map_map]; rfl
      _ = (df2.rows.map projRequired).map recordOfCells := by rw [hproj]
      _ = df2.rows.map (fun r => recordOfCells (projRequired r)) := by
          rw [List.map_map]; rfl
  unfold extractRows
  by_cases h1 : hasSchema df1
  · rw [if_pos h1, if_pos (hschema.mp h1), hrecords]
  · rw [if_neg h1, if_neg (fun h2 => h1 (hschema.mpr h2))]

/-- C10: construction reads only the "Rarity" column and the four feature
columns — two tables agreeing on those five columns yield the same
controller, hence identical predictions, whatever extra columns they
carry. -/
theorem c10_reads_only_declared_columns (df1 df2 : DataFrame) (now : String)
    (hcols : ∀ c ∈ requiredCols, (c ∈ df1.columns ↔ c ∈ df2.columns))
    (hproj : df1.rows.map projRequired = df2.rows.map projRequired) :
    Machine.init df1 now = Machine.init df2 now ∧
    ∀ m1 m2, Machine.init df1 now = .ok m1 → Machine.init df2 now = .ok m2 →
      ∀ batch, m1.call batch = m2.call batch := by
  have hinit : Machine.init df1 now = Machine.init df2 now := by
    unfold Machine.init
    rw [extractRows_agree df1 df2 hcols hproj]
  refine ⟨hinit, fun m1 m2 h1 h2 batch => ?_⟩
  rw [hinit, h2] at h1
  rw [Except.ok.inj h1]

/-! Concrete tables exercising the claims. -/

/-- A table row holding the given label and feature values. -/
def mkRow (rarity : String) (l h e s : ℚ) : String → Cell := fun c =>
  if c = "Level" then .num l
  else if c = "Health" then .num h
  else if c = "Energy" then .num e
  else if c = "Sanity" then .num s
  else if c = "Rarity" then .str rarity
  else .str ""

/-- A small well-formed two-class table. -/
def dfEx : DataFrame := ⟨requiredCols, [mkRow "Common" 0 0 0 0, mkRow "Rare" 4 0 0 0]⟩

/-- The training rows extracted from `dfEx`. -/
def rowsEx : List Row := [(⟨0, 0, 0, 0⟩, "Common"), (⟨4, 0, 0, 0⟩, "Rare")]

/-- The controller constructed from `dfEx` at timestamp "t". -/
def mEx : Machine := ⟨"Support Vector Machines", rowsEx, "t"⟩

/-- A two-row table carrying a single distinct label. -/
def dfOne : DataFrame := ⟨requiredCols, [mkRow "Common" 0 0 0 0, mkRow "Common" 1 0 0 0]⟩

/-- The training rows extracted from `dfOne`. -/
def rowsOne : List Row := [(⟨0, 0, 0, 0⟩, "Common"), (⟨1, 0, 0, 0⟩, "Common")]

/-- An imbalanced table: seven "Common" rows and two "Rare" rows, so the
"Rare" minority is below SMOTE's six-sample neighbour requirement. -/
def dfImb : DataFrame := ⟨requiredCols,
  [mkRow "Common" 1 0 0 0, mkRow "Common" 1 0 0 0, mkRow "Common" 1 0 0 0,
   mkRow "Common" 1 0 0 0, mkRow "Common" 1 0 0 0, mkRow "Common" 1 0 0 0,
   mkRow "Common" 1 0 0 0, mkRow "Rare" 10 0 0 0, mkRow "Rare" 11 0 0 0]⟩

/-- The training rows extracted from `dfImb`. -/
def rowsImb : List Row :=
  [(⟨1, 0, 0, 0⟩, "Common"), (⟨1, 0, 0, 0⟩, "Common"), (⟨1, 0, 0, 0⟩, "Common"),
   (⟨1, 0, 0, 0⟩, "Common"), (⟨1, 0, 0, 0⟩, "Common"), (⟨1, 0, 0, 0⟩, "Common"),
   (⟨1, 0, 0, 0⟩, "Common"), (⟨10, 0, 0, 0⟩, "Rare"), (⟨11, 0, 0, 0⟩, "Rare")]

/-- A zero-row table with the full schema. -/
def dfEmpty : DataFrame := ⟨requiredCols, []⟩

/-- A nonempty table missing the "Rarity" column. -/
def dfNoRarity : DataFrame := ⟨featureColumns, [mkRow "x" 0 0 0 0]⟩

/-- A copy of `dfEx` carrying an additional "Extra" column with junk data. -/
def dfExtra : DataFrame := ⟨"Extra" :: requiredCols,
  [fun c => if c = "Extra" then .num 99 else mkRow "Common" 0 0 0 0 c,
   fun c => if c = "Extra" then .str "junk" else mkRow "Rare" 4 0 0 0 c]⟩

/-- Witness for C1 at the concrete table `dfEx`. -/
theorem c1_balanced_resampling_witness :
    (∀ c ∈ classesOf rowsEx, countLabel c mEx.train = majCount rowsEx) ∧
    (∀ c1 ∈ classesOf rowsEx, ∀ c2 ∈ classesOf rowsEx,
      countLabel c1 mEx.train = countLabel c2 mEx.train) :=
  c1_balanced_resampling dfEx "t" mEx rowsEx rowsEx rfl rfl rfl

/-- Witness for C3: the concrete prediction on `dfEx` has confidence 17/18,
inside [0,1], maximal among the probability entries, attached to "Common". -/
theorem c3_confidence_contract_witness :
    0 ≤ (17 / 18 : ℚ) ∧ (17 / 18 : ℚ) ≤ 1 ∧
    ("Common", (17 / 18 : ℚ)) ∈ predictProba mEx.train ⟨0, 0, 0, 0⟩ ∧
    ∀ p ∈ predictProba mEx.train ⟨0, 0, 0, 0⟩, p.2 ≤ (17 / 18 : ℚ) :=
  c3_confidence_contract dfEx "t" mEx rfl ⟨0, 0, 0, 0⟩ [] "Common" (17 / 18) (by
    show Machine.call mEx [⟨0, 0, 0, 0⟩] = some ("Common", 17 / 18)
    have hclasses : classesOf mEx.train = ["Common", "Rare"] := rfl
    have hcr1 : classRows "Common" mEx.train = [(⟨0, 0, 0, 0⟩, "Common")] := rfl
    have hcr2 : classRows "Rare" mEx.train = [(⟨4, 0, 0, 0⟩, "Rare")] := rfl
    simp only [Machine.call, predictProba, hclasses, List.map_cons, List.map_nil,
      List.sum_cons, List.sum_nil, classScore, hcr1, hcr2, meanFeature, sqDist,
      bestOf, listMaxQ, List.foldl_cons, List.foldl_nil]
    norm_num)

/-- Witness for C4: two constructions from `dfEx` at different timestamps
predict identically. -/
theorem c4_deterministic_fit_witness :
    Machine.call ⟨"Support Vector Machines", rowsEx, "t1"⟩ [⟨0, 0, 0, 0⟩] =
    Machine.call ⟨"Support Vector Machines", rowsEx, "t2"⟩ [⟨0, 0, 0, 0⟩] :=
  c4_deterministic_fit dfEx "t1" "t2" ⟨"Support Vector Machines", rowsEx, "t1"⟩
    ⟨"Support Vector Machines", rowsEx, "t2"⟩ rfl rfl [⟨0, 0, 0, 0⟩]

/-- Witness for C5 at a zero-row table and at a table missing "Rarity". -/
theorem c5_construction_errors_witness :
    Machine.init dfEmpty "t" = .error .emptyDataset ∧
    Machine.init dfNoRarity "t" = .error .schemaMismatch :=
  ⟨(c5_construction_errors dfEmpty "t").1 rfl (by decide),
   (c5_construction_errors dfNoRarity "t").2 (by decide)⟩

/-- Witness for C6 at the single-label table `dfOne`. -/
theorem c6_degenerate_training_witness :
    Machine.init dfOne "t" = .error .degenerateTrainingSet :=
  c6_degenerate_training dfOne "t" rowsOne rfl (by decide)

/-- Witness for C7 at the imbalanced table `dfImb`. -/
theorem c7_insufficient_samples_witness :
    Machine.init dfImb "t" = .error .insufficientSamples :=
  c7_insufficient_samples dfImb "t" rowsImb "Rare" rfl (by decide) (by decide) (by decide)

/-- Witness for C9 at the concrete rows of `dfEx`. -/
theorem c9_monotone_resampling_witness :
    countLabel "Common" rowsEx ≤ countLabel "Common" rowsEx ∧
    countLabel "Common" (undersample sklearnSeed rowsEx) ≤ countLabel "Common" rowsEx :=
  c9_monotone_resampling sklearnSeed rowsEx rowsEx rfl "Common"

/-- Witness for C10: `dfExtra` differs from `dfEx` only in the junk "Extra"
column, and both constructions coincide. -/
theorem c10_reads_only_declared_columns_witness :
    Machine.init dfExtra "t" = Machine.init dfEx "t" ∧
    ∀ m1 m2, Machine.init dfExtra "t" = .ok m1 → Machine.init dfEx "t" = .ok m2 →
      ∀ batch, m1.call batch = m2.call batch :=
  c10_reads_only_declared_columns dfExtra dfEx "t" (by decide) (by decide)

end Bandersnatch
